import Mathlib

/-!
Verification development for the `stall` utility: a shallow embedding of the
entry reconciliation engine (path index, status comparison, collect/distribute
action decision and runs) together with theorems settling the specified
properties.

Paths are modelled as normalized component lists, mirroring the component view
of `std::path::Path` used by the source (`file_name`, `join`, equality).
-/

namespace StallM

/-- One component of a filesystem path (normalized, as in Rust's
`Path::components`). -/
inductive Component where
  | root
  | parentDir
  | normal (s : String)
  deriving DecidableEq, Repr

/-- A filesystem path as its normalized component list. -/
abbrev FsPath := List Component

/-- Rust's `Path::file_name`: the final component when it is a normal name,
`none` for paths such as `/` or ones terminating in `..`. -/
def fileName (p : FsPath) : Option String :=
  match p.getLast? with
  | some (Component.normal s) => some s
  | _ => none

/-- Rust's `Path::join` with a single (relative, normal) file-name component,
as produced by `into.join(file_name)` in the source. -/
def joinName (p : FsPath) (n : String) : FsPath :=
  p ++ [Component.normal n]

/-! ### The bidirectional path index

`Stall` stores its entries in a `bimap::BiHashMap<PathBuf, PathBuf>`
(Left = local, Right = remote).  The bimap crate is an external dependency;
its operations are modelled here from the spec's contract for the index
(§4.3): `insert` removes any pre-existing pair sharing either key before
inserting, `remove_by_left/right` remove the unique pair with that key, and
lookups return the paired value. The map is embedded as a pair list. -/

abbrev Bimap := List (FsPath × FsPath)

/-- `BiHashMap::get_by_left`. -/
def getByLeft (m : Bimap) (l : FsPath) : Option FsPath :=
  match m with
  | [] => none
  | p :: rest => if p.1 = l then some p.2 else getByLeft rest l

/-- `BiHashMap::get_by_right`. -/
def getByRight (m : Bimap) (r : FsPath) : Option FsPath :=
  match m with
  | [] => none
  | p :: rest => if p.2 = r then some p.1 else getByRight rest r

/-- Modelled from the spec: `BiHashMap::insert` (absent from src/; the spec's
§4.3 contract) removes any pre-existing entry sharing either key, then adds
the new pair. -/
def bimapInsert (m : Bimap) (l r : FsPath) : Bimap :=
  m.filter (fun p => decide (p.1 ≠ l ∧ p.2 ≠ r)) ++ [(l, r)]

/-- Modelled from the spec: `BiHashMap::remove_by_left` removes the pair with
the given left key, if present. -/
def eraseByLeft (m : Bimap) (l : FsPath) : Bimap :=
  match m with
  | [] => []
  | p :: rest => if p.1 = l then rest else p :: eraseByLeft rest l

/-- Modelled from the spec: `BiHashMap::remove_by_right` removes the pair with
the given right key, if present. -/
def eraseByRight (m : Bimap) (r : FsPath) : Bimap :=
  match m with
  | [] => []
  | p :: rest => if p.2 = r then rest else p :: eraseByRight rest r

/-- The pair removed by `remove_by_left`, if any. -/
def findByLeft (m : Bimap) (l : FsPath) : Option (FsPath × FsPath) :=
  match m with
  | [] => none
  | p :: rest => if p.1 = l then some p else findByLeft rest l

/-- The pair removed by `remove_by_right`, if any. -/
def findByRight (m : Bimap) (r : FsPath) : Option (FsPath × FsPath) :=
  match m with
  | [] => none
  | p :: rest => if p.2 = r then some p else findByRight rest r

/-- The bijection invariant of the index: no two entries share a local path,
and no two entries share a remote path. -/
def nodupKeys (m : Bimap) : Prop :=
  (m.map Prod.fst).Nodup ∧ (m.map Prod.snd).Nodup

/-! ### The stall store (`src/entry.rs`) -/

/-- Failure of `Stall::insert`: the source asserts that both paths have a
file-name component and panics otherwise; the panic is modelled as this
error value (the asserts precede any mutation of the store). -/
inductive StallError where
  | invalidEntryPath
  deriving DecidableEq, Repr

/-- `Stall` (src/entry.rs): load status plus the entry bimap.
`loadPath`/`modified` are the fields of `LoadStatus`
(src/application/load_status.rs), inlined. -/
structure Stall where
  loadPath : Option FsPath
  modified : Bool
  entries : Bimap
  deriving DecidableEq, Repr

/-- `Stall::new` (with a load path); entries empty, modified false. -/
def Stall.new (p : FsPath) : Stall :=
  { loadPath := some p, modified := false, entries := [] }

/-- `Stall::is_empty`. -/
def Stall.is_empty (s : Stall) : Bool :=
  s.entries.isEmpty

/-- `Stall::entry_local`: the entry associated with the given local path. -/
def Stall.entry_local (s : Stall) (l : FsPath) : Option (FsPath × FsPath) :=
  (getByLeft s.entries l).map (fun r => (l, r))

/-- `Stall::entry_remote`: the entry associated with the given remote path. -/
def Stall.entry_remote (s : Stall) (r : FsPath) : Option (FsPath × FsPath) :=
  (getByRight s.entries r).map (fun l => (l, r))

/-- `Stall::insert` (src/entry.rs:117-127): assert both paths have file names
(panic modelled as `invalidEntryPath`, before any mutation), set the modified
flag, then insert into the bimap (overwriting any pair sharing either key). -/
def Stall.insert (s : Stall) (l r : FsPath) : Except StallError Stall :=
  if (fileName l).isSome ∧ (fileName r).isSome then
    Except.ok { s with modified := true, entries := bimapInsert s.entries l r }
  else
    Except.error StallError.invalidEntryPath

/-- `Stall::remove_local` (src/entry.rs:131-139): sets the modified flag
unconditionally, then removes (and returns) the pair with the given local
path, if any. -/
def Stall.remove_local (s : Stall) (l : FsPath) :
    Option (FsPath × FsPath) × Stall :=
  (findByLeft s.entries l,
   { s with modified := true, entries := eraseByLeft s.entries l })

/-- `Stall::remove_remote` (src/entry.rs:143-151): sets the modified flag
unconditionally, then removes (and returns) the pair with the given remote
path, if any. -/
def Stall.remove_remote (s : Stall) (r : FsPath) :
    Option (FsPath × FsPath) × Stall :=
  (findByRight s.entries r,
   { s with modified := true, entries := eraseByRight s.entries r })

/-- Failure of `Stall::write_to_path` (src/entry.rs:218-233): opening the
target file or serializing/writing can fail. -/
inductive SaveError where
  | openFailed
  | writeFailed
  deriving DecidableEq, Repr

/-- `Stall::write_to_path` (src/entry.rs:218-233): takes the store by shared
reference, opens the file (`openOk`), serializes and writes it (`writeOk`).
The returned `Stall` is the store after the call: the source borrows `&self`
immutably, so it is returned unchanged; the second component is the
serialized entry list. -/
def Stall.write_to_path (s : Stall) (openOk writeOk : Bool) :
    Except SaveError (Stall × Bimap) :=
  if !openOk then Except.error SaveError.openFailed
  else if !writeOk then Except.error SaveError.writeFailed
  else Except.ok (s, s.entries)

/-! ### Status comparison (`Entry::status`, src/entry.rs:380-409) -/

/-- The result of `fcmp::FileCmp::try_from` on one path: an error opening the
file, or a snapshot that is either not found, or found with an optional
modification time (none when the timestamp is unavailable). -/
inductive Snap where
  | error
  | absent
  | found (mtime : Option Nat)
  deriving DecidableEq, Repr

/-- `EntryStatus` (src/entry.rs:481-496). -/
inductive EntryStatus where
  | error
  | absent
  | exists_
  | newer
  | older
  | force
  | same
  deriving DecidableEq, Repr

/-- Modelled from the spec: `fcmp::FileCmp::partial_cmp` is in the external
`fcmp` crate, absent from src/. Per §4.1 it compares the two modification
timestamps, returns `none` if either timestamp is unavailable, and the
boolean `reverse` flips the sign. -/
def fileCmpOrd (a b : Option Nat) (reverse : Bool) : Option Ordering :=
  match a, b with
  | some x, some y => some (if reverse then compare y x else compare x y)
  | _, _ => none

/-- `Entry::status` (src/entry.rs:380-409): the (local, remote) status pair
computed from the two `FileCmp` results (the snapshots of the full local path
and the remote path). -/
def entryStatus (l r : Snap) : EntryStatus × EntryStatus :=
  match l, r with
  | Snap.error, Snap.error => (EntryStatus.error, EntryStatus.error)
  | Snap.error, Snap.absent => (EntryStatus.error, EntryStatus.absent)
  | Snap.error, Snap.found _ => (EntryStatus.error, EntryStatus.exists_)
  | Snap.absent, Snap.error => (EntryStatus.absent, EntryStatus.error)
  | Snap.found _, Snap.error => (EntryStatus.exists_, EntryStatus.error)
  | Snap.absent, Snap.absent => (EntryStatus.absent, EntryStatus.absent)
  | Snap.found _, Snap.absent => (EntryStatus.exists_, EntryStatus.absent)
  | Snap.absent, Snap.found _ => (EntryStatus.absent, EntryStatus.exists_)
  | Snap.found ml, Snap.found mr =>
    match fileCmpOrd ml mr false with
    | some Ordering.lt => (EntryStatus.newer, EntryStatus.older)
    | some Ordering.eq => (EntryStatus.same, EntryStatus.same)
    | some Ordering.gt => (EntryStatus.older, EntryStatus.newer)
    | none => (EntryStatus.error, EntryStatus.error)

/-! ### Actions and the physical copy (`src/action.rs`) -/

/-- `Action` (src/action.rs:40-47). -/
inductive Action where
  | copy
  | skip
  | stop
  deriving DecidableEq, Repr

/-- `State` (src/action.rs:62-73): the state of the source file relative to
the target file, as printed in the status line. -/
inductive State where
  | error
  | force
  | found
  | newer
  | older
  deriving DecidableEq, Repr

/-- `CopyMethod` (src/action.rs:153-158). -/
inductive CopyMethod where
  | noCopy
  | subprocess
  deriving DecidableEq, Repr

/-- The outcome of spawning the platform copy subprocess (`cp`/`COPY`):
either the spawn itself fails, or the process runs and exits with a code. -/
inductive SpawnResult where
  | failed
  | exited (code : Int)
  deriving DecidableEq, Repr

/-- The error type of the copy collaborator (`Result<(), Error>`); no value
of it is ever constructed by `copy_file`. -/
inductive CopyError where

/-- `copy_file` (src/action.rs:119-145). With `CopyMethod::None` it only logs
and returns `Ok`. With `CopyMethod::Subprocess` it spawns the platform copy
command; `status.expect(..)` panics when the spawn fails (modelled as the
outer `none`), and otherwise the exit status is discarded
(`let _ = ...`) and `Ok(())` is returned regardless of whether the copy
succeeded. -/
def copy_file (spawn : SpawnResult) (method : CopyMethod) :
    Option (Except CopyError Unit) :=
  match method with
  | CopyMethod.noCopy => some (Except.ok ())
  | CopyMethod.subprocess =>
    match spawn with
    | SpawnResult.failed => none
    | SpawnResult.exited _ => some (Except.ok ())

/-- The filesystem as observed through `Path::exists` and
`metadata().modified()`: for each path, `some mtime` when the file exists
(Rust's `exists()` already requires readable metadata), `none` otherwise. -/
abbrev FS := FsPath → Option Nat

/-- Pointwise update of the filesystem model. -/
def fsSet (fs : FS) (p : FsPath) (v : Option Nat) : FS :=
  fun q => if q = p then v else fs q

/-- The external copy collaborator: the spawn outcome of `cp source target`
and its effect on the filesystem. Both live outside src/ (the platform copy
utility); runs are parameterized over them. -/
structure CopyOracle where
  spawn : FsPath → FsPath → SpawnResult
  eff : FS → FsPath → FsPath → FS

/-- The spec's contract for the copy collaborator (§6): a successful copy
makes the destination exist with the source's modification time preserved. -/
def PreservingOracle (oracle : CopyOracle) : Prop :=
  ∀ fs s t, oracle.eff fs s t = fsSet fs t (fs s)

/-- Abort conditions of a collect/distribute run. -/
inductive RunError where
  | invalidFile
  | missingFile (p : FsPath)
  | panicked
  | copyFailed (e : CopyError)

/-- The per-entry record of a run: the processed source path, its target, the
observed modification times, and the printed state/action. -/
structure EntryRec where
  source : FsPath
  target : FsPath
  srcM : Option Nat
  tgtM : Option Nat
  st : State
  act : Action

/-- The copy arm shared by both loops: invoke `copy_file` on the spawned
subprocess (src/command/collect.rs:162, src/action/distribute.rs:145), with
the `?` propagating any copy error; on success record the status line and
the subprocess's filesystem effect (none under a dry run). -/
def copyAttempt (oracle : CopyOracle) (fs : FS) (source target : FsPath)
    (method : CopyMethod) (st : State) : Except RunError (FS × EntryRec) :=
  match copy_file (oracle.spawn source target) method with
  | none => Except.error RunError.panicked
  | some (Except.error e) => Except.error (RunError.copyFailed e)
  | some (Except.ok _) =>
    Except.ok ((match method with
      | CopyMethod.noCopy => fs
      | CopyMethod.subprocess => oracle.eff fs source target),
      ⟨source, target, fs source, fs target, st, Action.copy⟩)

/-- The decision body of the `collect` loop (src/command/collect.rs:116-163):
match on existence of source and target, compare modification times, copy
when the source is newer or the target absent, force-copy when forced,
otherwise skip; a missing source aborts the run when warnings are promoted
to errors and is reported as an error-skip otherwise. -/
def collectDecide (force promote : Bool) (method : CopyMethod)
    (oracle : CopyOracle) (fs : FS) (source target : FsPath) :
    Except RunError (FS × EntryRec) :=
  match fs source with
  | some sm =>
    match fs target with
    | some tm =>
      if sm > tm then copyAttempt oracle fs source target method State.newer
      else if force then copyAttempt oracle fs source target method State.force
      else Except.ok (fs, ⟨source, target, some sm, some tm, State.older, Action.skip⟩)
    | none => copyAttempt oracle fs source target method State.found
  | none =>
    if promote then Except.error (RunError.missingFile source)
    else Except.ok (fs, ⟨source, target, none, fs target, State.error, Action.skip⟩)

/-- One iteration of the `collect` loop (src/command/collect.rs:109-163):
the target is the stall file `into.join(file_name)` derived from the
source's (the remote's) file name. -/
def collectStep (into : FsPath) (force promote dryRun : Bool)
    (oracle : CopyOracle) (fs : FS) (source : FsPath) :
    Except RunError (FS × EntryRec) :=
  match fileName source with
  | none => Except.error RunError.invalidFile
  | some n =>
    collectDecide force promote
      (if dryRun then CopyMethod.noCopy else CopyMethod.subprocess)
      oracle fs source (joinName into n)

/-- The `collect` loop over the entries' remote paths
(src/command/collect.rs:109-163), aborting on the first error. -/
def collectRun (into : FsPath) (force promote dryRun : Bool)
    (oracle : CopyOracle) (fs : FS) (sources : List FsPath) :
    Except RunError (FS × List EntryRec) :=
  match sources with
  | [] => Except.ok (fs, [])
  | s :: rest =>
    match collectStep into force promote dryRun oracle fs s with
    | Except.error e => Except.error e
    | Except.ok (fs', r) =>
      match collectRun into force promote dryRun oracle fs' rest with
      | Except.error e => Except.error e
      | Except.ok (fs'', rs) => Except.ok (fs'', r :: rs)

/-- The decision body of the `distribute` loop
(src/action/distribute.rs:105-146): identical in structure to `collect`
(the source here is the stall copy, the target the remote file), except
that a missing source without error promotion prints `(Older, Skip)`. -/
def distributeDecide (force promote : Bool) (method : CopyMethod)
    (oracle : CopyOracle) (fs : FS) (source target : FsPath) :
    Except RunError (FS × EntryRec) :=
  match fs source with
  | some sm =>
    match fs target with
    | some tm =>
      if sm > tm then copyAttempt oracle fs source target method State.newer
      else if force then copyAttempt oracle fs source target method State.force
      else Except.ok (fs, ⟨source, target, some sm, some tm, State.older, Action.skip⟩)
    | none => copyAttempt oracle fs source target method State.found
  | none =>
    if promote then Except.error (RunError.missingFile source)
    else Except.ok (fs, ⟨source, target, none, fs target, State.older, Action.skip⟩)

/-- One iteration of the `distribute` loop (src/action/distribute.rs:98-146):
the iterated files are the targets (the remote paths) and the source is the
stall copy `from.join(file_name)`. -/
def distributeStep (fromDir : FsPath) (force promote dryRun : Bool)
    (oracle : CopyOracle) (fs : FS) (target : FsPath) :
    Except RunError (FS × EntryRec) :=
  match fileName target with
  | none => Except.error RunError.invalidFile
  | some n =>
    distributeDecide force promote
      (if dryRun then CopyMethod.noCopy else CopyMethod.subprocess)
      oracle fs (joinName fromDir n) target

/-- The `distribute` loop over the given target files
(src/action/distribute.rs:98-146), aborting on the first error. -/
def distributeRun (fromDir : FsPath) (force promote dryRun : Bool)
    (oracle : CopyOracle) (fs : FS) (targets : List FsPath) :
    Except RunError (FS × List EntryRec) :=
  match targets with
  | [] => Except.ok (fs, [])
  | t :: rest =>
    match distributeStep fromDir force promote dryRun oracle fs t with
    | Except.error e => Except.error e
    | Except.ok (fs', r) =>
      match distributeRun fromDir force promote dryRun oracle fs' rest with
      | Except.error e => Except.error e
      | Except.ok (fs'', rs) => Except.ok (fs'', r :: rs)

/-! ### The `stall-distribute` command (`src/command/distribute.rs`) -/

/-- Failure of the distribute command: a selection argument matching no
stored entry (`anyhow!("unrecognized stall entry: ...")`,
src/command/distribute.rs:117). -/
inductive DistError where
  | unknownEntry (p : FsPath)

/-- The selection-resolution phase (src/command/distribute.rs:110-121): map
each selected file to its entry via `entry_local`, short-circuiting with an
`unknownEntry` error at the first file that resolves to no entry (Rust's
`collect::<Result<Vec<_>, _>>()`). -/
def resolveSelection (stall : Stall) (files : List FsPath) :
    Except DistError (List (FsPath × FsPath)) :=
  match files with
  | [] => Except.ok []
  | f :: rest =>
    match stall.entry_local f with
    | none => Except.error (DistError.unknownEntry f)
    | some e =>
      match resolveSelection stall rest with
      | Except.error e' => Except.error e'
      | Except.ok es => Except.ok (e :: es)

/-- Modelled from the spec: `Entry::distribute` is invoked by
src/command/distribute.rs:124 but its definition is absent from src/ (left
commented out in src/entry.rs:474). Per §4.2/§4.5: with the local file as
source of truth, copy the stall file onto the remote when the statuses are
(Exists, Absent) or (Newer, Older), force-copy when `force` is set and
neither side is strictly authoritative, otherwise skip; a physical copy (not
performed under `dry_run`) gives the remote the local file's modification
time (§6). Returns the filesystem and the performed copies. -/
def entryDistribute (stallDir : FsPath) (force dryRun : Bool) (fs : FS)
    (e : FsPath × FsPath) : FS × List (FsPath × FsPath) :=
  let fullLocal := stallDir ++ e.1
  let doCopy : FS × List (FsPath × FsPath) :=
    if dryRun then (fs, [])
    else (fsSet fs e.2 (fs fullLocal), [(fullLocal, e.2)])
  match fs fullLocal, fs e.2 with
  | some lm, some rm =>
    if rm < lm then doCopy
    else if force then doCopy
    else (fs, [])
  | some _, none => doCopy
  | none, _ => (fs, [])

/-- The processing loop of src/command/distribute.rs:123-130 over the
resolved entries, accumulating the performed copies. -/
def processDistribute (stallDir : FsPath) (force dryRun : Bool) (fs : FS) :
    List (FsPath × FsPath) → FS × List (FsPath × FsPath)
  | [] => (fs, [])
  | e :: rest =>
    let (fs', cs) := entryDistribute stallDir force dryRun fs e
    let (fs'', cs') := processDistribute stallDir force dryRun fs' rest
    (fs'', cs ++ cs')

/-- The `stall-distribute` command (src/command/distribute.rs:69-133): an
empty stall returns successfully at once; otherwise the selection is
resolved in full (all entries when no files are selected), and only then is
each entry processed. Returns the performed copies alongside the result. -/
def distributeCmd (stallDir : FsPath) (stall : Stall) (files : List FsPath)
    (force dryRun : Bool) (fs : FS) :
    List (FsPath × FsPath) × Except DistError FS :=
  if stall.is_empty then ([], Except.ok fs)
  else
    match (if files.isEmpty then Except.ok stall.entries
           else resolveSelection stall files) with
    | Except.error e => ([], Except.error e)
    | Except.ok entries =>
      let (fs', cs) := processDistribute stallDir force dryRun fs entries
      (cs, Except.ok fs')

/-- A source path is settled for collect: its file name is defined, and
either the source is absent while warnings are not promoted, or both the
source and its stall target exist with the target's modification time at
least the source's. This is the state every entry is left in by a
successful unforced, non-dry collect pass. -/
def Good (into : FsPath) (promote : Bool) (fs : FS) (s : FsPath) : Prop :=
  ∃ n, fileName s = some n ∧
    ((fs s = none ∧ promote = false) ∨
     (∃ sm tm, fs s = some sm ∧ fs (joinName into n) = some tm ∧ sm ≤ tm))

/-! ### The spawned copy command (`src/action.rs:129-140`) -/

/-- The argument vector of the copy subprocess spawned by `copy_file` on
non-Windows targets (src/action.rs:136-139): `cp source target`, with no
further flags. -/
def copyCommandArgv (source target : String) : List String :=
  ["cp", source, target]

/-- Modelled from the spec: the platform copy utility run by `copy_file` is
outside src/ (§6 names it as the physical copy collaborator). Per the
utility's documented behavior, `cp` preserves the source modification time
only under a preservation flag (`-p`, `--preserve[=timestamps]`, `-a`). -/
def cpPreservesTimestamps (argv : List String) : Bool :=
  argv.any (fun a =>
    a = "-p" || a = "--preserve" || a = "--preserve=timestamps" ||
    a = "-a" || a = "--archive")

/-- Modelled from the spec: the destination's modification time after the
platform `cp` runs — the source's time under a preservation flag, the time
of the copy otherwise. -/
def cpDestMtime (argv : List String) (sourceMtime now : Nat) : Nat :=
  if cpPreservesTimestamps argv then sourceMtime else now

/-! ## Helper lemmas for the path index -/

theorem getByLeft_append_no_left (m1 m2 : Bimap) (l : FsPath)
    (h : ∀ p ∈ m1, p.1 ≠ l) : getByLeft (m1 ++ m2) l = getByLeft m2 l := by
  induction m1 with
  | nil => rfl
  | cons p rest ih =>
    have hp : p.1 ≠ l := h p (List.mem_cons_self p rest)
    simpa only [List.cons_append, getByLeft, if_neg hp] using
      ih (fun q hq => h q (List.mem_cons_of_mem p hq))

theorem getByRight_append_no_right (m1 m2 : Bimap) (r : FsPath)
    (h : ∀ p ∈ m1, p.2 ≠ r) : getByRight (m1 ++ m2) r = getByRight m2 r := by
  induction m1 with
  | nil => rfl
  | cons p rest ih =>
    have hp : p.2 ≠ r := h p (List.mem_cons_self p rest)
    simpa only [List.cons_append, getByRight, if_neg hp] using
      ih (fun q hq => h q (List.mem_cons_of_mem p hq))

theorem mem_filtered_ne (m : Bimap) (l r : FsPath) :
    ∀ p ∈ m.filter (fun p => decide (p.1 ≠ l ∧ p.2 ≠ r)), p.1 ≠ l ∧ p.2 ≠ r := by
  intro p hp
  have := (List.mem_filter.mp hp).2
  exact of_decide_eq_true this

theorem getByLeft_bimapInsert_self (m : Bimap) (l r : FsPath) :
    getByLeft (bimapInsert m l r) l = some r := by
  unfold bimapInsert
  rw [getByLeft_append_no_left _ _ _ (fun p hp => (mem_filtered_ne m l r p hp).1)]
  simp [getByLeft]

theorem getByRight_bimapInsert_self (m : Bimap) (l r : FsPath) :
    getByRight (bimapInsert m l r) r = some l := by
  unfold bimapInsert
  rw [getByRight_append_no_right _ _ _ (fun p hp => (mem_filtered_ne m l r p hp).2)]
  simp [getByRight]

theorem mem_bimapInsert (m : Bimap) (l r a b : FsPath) :
    (a, b) ∈ bimapInsert m l r ↔
      ((a = l ∧ b = r) ∨ ((a, b) ∈ m ∧ a ≠ l ∧ b ≠ r)) := by
  simp only [bimapInsert, List.mem_append, List.mem_filter, decide_eq_true_eq,
    List.mem_singleton, Prod.mk.injEq]
  tauto

theorem nodupKeys_bimapInsert (m : Bimap) (l r : FsPath)
    (h : nodupKeys m) : nodupKeys (bimapInsert m l r) := by
  have hsub : (m.filter (fun p => decide (p.1 ≠ l ∧ p.2 ≠ r))).Sublist m :=
    List.filter_sublist m
  constructor
  · rw [bimapInsert, List.map_append, List.nodup_append]
    refine ⟨(hsub.map Prod.fst).nodup h.1, List.nodup_singleton l, ?_⟩
    intro x hx hmem
    rcases List.mem_map.mp hx with ⟨p, hp, rfl⟩
    exact (mem_filtered_ne m l r p hp).1 (List.mem_singleton.mp hmem)
  · rw [bimapInsert, List.map_append, List.nodup_append]
    refine ⟨(hsub.map Prod.snd).nodup h.2, List.nodup_singleton r, ?_⟩
    intro x hx hmem
    rcases List.mem_map.mp hx with ⟨p, hp, rfl⟩
    exact (mem_filtered_ne m l r p hp).2 (List.mem_singleton.mp hmem)

theorem findByLeft_eq_none (m : Bimap) (l : FsPath)
    (h : getByLeft m l = none) : findByLeft m l = none := by
  induction m with
  | nil => rfl
  | cons p rest ih =>
    by_cases hp : p.1 = l
    · simp [getByLeft, hp] at h
    · simp only [getByLeft, if_neg hp] at h
      simp only [findByLeft, if_neg hp]
      exact ih h

theorem eraseByLeft_eq_self (m : Bimap) (l : FsPath)
    (h : getByLeft m l = none) : eraseByLeft m l = m := by
  induction m with
  | nil => rfl
  | cons p rest ih =>
    by_cases hp : p.1 = l
    · simp [getByLeft, hp] at h
    · simp only [getByLeft, if_neg hp] at h
      simp only [eraseByLeft, if_neg hp]
      rw [ih h]

theorem findByRight_eq_none (m : Bimap) (r : FsPath)
    (h : getByRight m r = none) : findByRight m r = none := by
  induction m with
  | nil => rfl
  | cons p rest ih =>
    by_cases hp : p.2 = r
    · simp [getByRight, hp] at h
    · simp only [getByRight, if_neg hp] at h
      simp only [findByRight, if_neg hp]
      exact ih h

theorem eraseByRight_eq_self (m : Bimap) (r : FsPath)
    (h : getByRight m r = none) : eraseByRight m r = m := by
  induction m with
  | nil => rfl
  | cons p rest ih =>
    by_cases hp : p.2 = r
    · simp [getByRight, hp] at h
    · simp only [getByRight, if_neg hp] at h
      simp only [eraseByRight, if_neg hp]
      rw [ih h]

/-! ## Claim theorems -/

/-- C1: for both-found, comparable entries, the source's status computation
does NOT return the claimed pairs on the strict rows: with the comparator of
§4.1 (standard timestamp ordering), `Entry::status` returns (Newer, Older)
when the local mtime is strictly less than the remote mtime and
(Older, Newer) when it is strictly greater — the transpose of the claimed
table — while agreeing on the equal and incomparable rows. -/
theorem entry_status_strict_rows_transposed :
    entryStatus (Snap.found (some 1)) (Snap.found (some 2)) =
      (EntryStatus.newer, EntryStatus.older) ∧
    entryStatus (Snap.found (some 1)) (Snap.found (some 2)) ≠
      (EntryStatus.older, EntryStatus.newer) ∧
    entryStatus (Snap.found (some 2)) (Snap.found (some 1)) =
      (EntryStatus.older, EntryStatus.newer) ∧
    entryStatus (Snap.found (some 4)) (Snap.found (some 4)) =
      (EntryStatus.same, EntryStatus.same) ∧
    entryStatus (Snap.found none) (Snap.found (some 7)) =
      (EntryStatus.error, EntryStatus.error) := by
  decide

/-- C3: after a valid insert, lookup by local returns the remote and lookup
by remote returns the local; the resulting entry set is exactly the old set
minus every entry sharing the local or the remote path, plus the new pair;
and the two-sided no-duplicate-key invariant is preserved. -/
theorem stall_insert_lookup_bijection (s : Stall) (l r : FsPath)
    (hl : (fileName l).isSome = true) (hr : (fileName r).isSome = true) :
    ∃ s', s.insert l r = Except.ok s' ∧
      s'.entry_local l = some (l, r) ∧
      s'.entry_remote r = some (l, r) ∧
      (∀ a b, (a, b) ∈ s'.entries ↔
        ((a = l ∧ b = r) ∨ ((a, b) ∈ s.entries ∧ a ≠ l ∧ b ≠ r))) ∧
      (nodupKeys s.entries → nodupKeys s'.entries) := by
  refine ⟨{ s with modified := true, entries := bimapInsert s.entries l r },
    ?_, ?_, ?_, ?_, ?_⟩
  · simp [Stall.insert, hl, hr]
  · simp [Stall.entry_local, getByLeft_bimapInsert_self]
  · simp [Stall.entry_remote, getByRight_bimapInsert_self]
  · intro a b
    exact mem_bimapInsert s.entries l r a b
  · exact nodupKeys_bimapInsert s.entries l r

theorem stall_insert_lookup_bijection_witness :
    ∃ s', Stall.insert
        { loadPath := none, modified := false,
          entries := [([Component.normal "old"], [Component.normal "a"])] }
        [Component.normal "a"] [Component.root, Component.normal "a"] =
        Except.ok s' ∧
      s'.entry_local [Component.normal "a"] =
        some ([Component.normal "a"], [Component.root, Component.normal "a"]) ∧
      s'.entry_remote [Component.root, Component.normal "a"] =
        some ([Component.normal "a"], [Component.root, Component.normal "a"]) ∧
      (∀ a b, (a, b) ∈ s'.entries ↔
        ((a = [Component.normal "a"] ∧ b = [Component.root, Component.normal "a"]) ∨
         ((a, b) ∈ [([Component.normal "old"], [Component.normal "a"])] ∧
          a ≠ [Component.normal "a"] ∧ b ≠ [Component.root, Component.normal "a"]))) ∧
      (nodupKeys [([Component.normal "old"], [Component.normal "a"])] →
        nodupKeys s'.entries) :=
  stall_insert_lookup_bijection _ _ _ (by decide) (by decide)

/-- C4: inserting a pair where either path lacks a file-name component fails
with the invalid-entry-path error (the source's assert panics before any
mutation), producing no updated store. -/
theorem stall_insert_rejects_invalid_path (s : Stall) (l r : FsPath)
    (h : fileName l = none ∨ fileName r = none) :
    s.insert l r = Except.error StallError.invalidEntryPath := by
  have hne : ¬((fileName l).isSome = true ∧ (fileName r).isSome = true) := by
    rcases h with h | h <;> simp [h]
  simp [Stall.insert, hne]

theorem stall_insert_rejects_invalid_path_witness :
    Stall.insert { loadPath := none, modified := false, entries := [] }
      [Component.root] [Component.root, Component.normal "a"] =
      Except.error StallError.invalidEntryPath :=
  stall_insert_rejects_invalid_path _ _ _ (by decide)

/-- C6: the physical copy spawns a bare `cp source target` with no
timestamp-preservation flag, so the destination's modification time becomes
the time of the copy, not the source's — contrary to the claim. -/
theorem copy_subprocess_resets_dest_mtime :
    cpPreservesTimestamps (copyCommandArgv "/r/a.txt" "stall/a.txt") = false ∧
    cpDestMtime (copyCommandArgv "/r/a.txt" "stall/a.txt") 5 100 = 100 ∧
    cpDestMtime (copyCommandArgv "/r/a.txt" "stall/a.txt") 5 100 ≠ 5 := by
  decide

/-- C10: removing by a local (resp. remote) path that is not a key returns
`none` and leaves the entry set (and load path) unchanged, yet still sets
the modified flag. -/
theorem stall_remove_missing_dirties (s : Stall) (l r : FsPath) :
    (getByLeft s.entries l = none →
      s.remove_local l = (none, { s with modified := true })) ∧
    (getByRight s.entries r = none →
      s.remove_remote r = (none, { s with modified := true })) := by
  constructor
  · intro h
    unfold Stall.remove_local
    rw [findByLeft_eq_none _ _ h, eraseByLeft_eq_self _ _ h]
  · intro h
    unfold Stall.remove_remote
    rw [findByRight_eq_none _ _ h, eraseByRight_eq_self _ _ h]

theorem stall_remove_missing_dirties_witness :
    Stall.remove_local
        { loadPath := none, modified := false,
          entries := [([Component.normal "a"], [Component.normal "b"])] }
        [Component.normal "x"] =
      (none, { loadPath := none, modified := true,
               entries := [([Component.normal "a"], [Component.normal "b"])] }) ∧
    Stall.remove_remote
        { loadPath := none, modified := false,
          entries := [([Component.normal "a"], [Component.normal "b"])] }
        [Component.normal "y"] =
      (none, { loadPath := none, modified := true,
               entries := [([Component.normal "a"], [Component.normal "b"])] }) :=
  ⟨(stall_remove_missing_dirties _ [Component.normal "x"] [Component.normal "y"]).1
      (by decide),
   (stall_remove_missing_dirties _ [Component.normal "x"] [Component.normal "y"]).2
      (by decide)⟩

/-- C8 counterexample: a fresh store mutated by a valid insert and then
successfully saved still has its modified flag set — a successful save does
not clear it (`write_to_path` borrows the store immutably and no code path
resets the flag after saving). -/
theorem stall_save_does_not_clear_modified :
    (match Stall.insert { loadPath := none, modified := false, entries := [] }
        [Component.normal "a"] [Component.root, Component.normal "a"] with
     | Except.ok s' =>
       match s'.write_to_path true true with
       | Except.ok x => x.1.modified
       | Except.error _ => false
     | Except.error _ => false) = true := by
  rfl

/-- C8 (amended): every insert, remove_local, or remove_remote sets the
modified flag to true, and a successful save leaves the store — including
its modified flag — unchanged (no operation clears the flag). -/
theorem stall_modified_set_on_mutation_not_cleared_on_save
    (s : Stall) (l r p q : FsPath) (ow ww : Bool) :
    (∀ s', s.insert l r = Except.ok s' → s'.modified = true) ∧
    (s.remove_local p).2.modified = true ∧
    (s.remove_remote q).2.modified = true ∧
    (∀ x, s.write_to_path ow ww = Except.ok x → x.1 = s) := by
  refine ⟨?_, rfl, rfl, ?_⟩
  · intro s' h
    unfold Stall.insert at h
    split at h
    · injection h with h
      rw [← h]
    · simp at h
  · intro x h
    unfold Stall.write_to_path at h
    split at h
    · simp at h
    · split at h
      · simp at h
      · injection h with h
        rw [← h]

theorem stall_modified_set_on_mutation_not_cleared_on_save_witness :
    ({ loadPath := none, modified := true,
       entries := [([Component.normal "a"], [Component.root, Component.normal "a"])] } :
        Stall).modified = true ∧
    (Stall.remove_local
        { loadPath := none, modified := false, entries := [] }
        [Component.normal "p"]).2.modified = true ∧
    (({ loadPath := none, modified := true,
        entries := [([Component.normal "a"], [Component.root, Component.normal "a"])] } :
        Stall),
      ([([Component.normal "a"], [Component.root, Component.normal "a"])] : Bimap)).1 =
      { loadPath := none, modified := true,
        entries := [([Component.normal "a"], [Component.root, Component.normal "a"])] } :=
  ⟨(stall_modified_set_on_mutation_not_cleared_on_save
      { loadPath := none, modified := false, entries := [] }
      [Component.normal "a"] [Component.root, Component.normal "a"]
      [Component.normal "p"] [Component.normal "q"] true true).1 _ rfl,
   (stall_modified_set_on_mutation_not_cleared_on_save
      { loadPath := none, modified := false, entries := [] }
      [Component.normal "a"] [Component.root, Component.normal "a"]
      [Component.normal "p"] [Component.normal "q"] true true).2.1,
   (stall_modified_set_on_mutation_not_cleared_on_save
      { loadPath := none, modified := true,
        entries := [([Component.normal "a"], [Component.root, Component.normal "a"])] }
      [Component.normal "a"] [Component.root, Component.normal "a"]
      [Component.normal "p"] [Component.normal "q"] true true).2.2.2 _ rfl⟩

/-! ## Helper lemmas for the run models -/

theorem copyAttempt_ok_rec (oracle : CopyOracle) (fs : FS) (source target : FsPath)
    (method : CopyMethod) (st : State) (fs' : FS) (r : EntryRec)
    (h : copyAttempt oracle fs source target method st = Except.ok (fs', r)) :
    r = ⟨source, target, fs source, fs target, st, Action.copy⟩ := by
  unfold copyAttempt at h
  split at h
  · simp at h
  · simp at h
  · injection h with h1
    injection h1 with h2 h3
    exact h3.symm

theorem collectDecide_copy_strict (promote : Bool) (method : CopyMethod)
    (oracle : CopyOracle) (fs : FS) (source target : FsPath) (fs' : FS)
    (r : EntryRec)
    (h : collectDecide false promote method oracle fs source target =
      Except.ok (fs', r))
    (hact : r.act = Action.copy) :
    ∀ sm tm, r.srcM = some sm → r.tgtM = some tm → tm < sm := by
  intro sm tm hsm htm
  rw [collectDecide.eq_def] at h
  cases hsv : fs source with
  | none =>
    rw [hsv] at h
    simp only at h
    split at h
    · simp at h
    · injection h with h1
      injection h1 with h2 h3
      rw [← h3] at hact
      simp at hact
  | some sm' =>
    rw [hsv] at h
    simp only at h
    cases htv : fs target with
    | none =>
      rw [htv] at h
      simp only at h
      have hr := copyAttempt_ok_rec _ _ _ _ _ _ _ _ h
      subst hr
      have ht2 : fs target = some tm := htm
      rw [htv] at ht2
      simp at ht2
    | some tm' =>
      rw [htv] at h
      simp only at h
      split at h
      · rename_i hgt
        have hr := copyAttempt_ok_rec _ _ _ _ _ _ _ _ h
        subst hr
        have hs2 : fs source = some sm := hsm
        have ht2 : fs target = some tm := htm
        rw [hsv] at hs2
        rw [htv] at ht2
        injection hs2 with hs2
        injection ht2 with ht2
        omega
      · rw [if_neg (by simp)] at h
        injection h with h1
        injection h1 with h2 h3
        rw [← h3] at hact
        simp at hact

theorem distributeDecide_copy_strict (promote : Bool) (method : CopyMethod)
    (oracle : CopyOracle) (fs : FS) (source target : FsPath) (fs' : FS)
    (r : EntryRec)
    (h : distributeDecide false promote method oracle fs source target =
      Except.ok (fs', r))
    (hact : r.act = Action.copy) :
    ∀ sm tm, r.srcM = some sm → r.tgtM = some tm → tm < sm := by
  intro sm tm hsm htm
  rw [distributeDecide.eq_def] at h
  cases hsv : fs source with
  | none =>
    rw [hsv] at h
    simp only at h
    split at h
    · simp at h
    · injection h with h1
      injection h1 with h2 h3
      rw [← h3] at hact
      simp at hact
  | some sm' =>
    rw [hsv] at h
    simp only at h
    cases htv : fs target with
    | none =>
      rw [htv] at h
      simp only at h
      have hr := copyAttempt_ok_rec _ _ _ _ _ _ _ _ h
      subst hr
      have ht2 : fs target = some tm := htm
      rw [htv] at ht2
      simp at ht2
    | some tm' =>
      rw [htv] at h
      simp only at h
      split at h
      · rename_i hgt
        have hr := copyAttempt_ok_rec _ _ _ _ _ _ _ _ h
        subst hr
        have hs2 : fs source = some sm := hsm
        have ht2 : fs target = some tm := htm
        rw [hsv] at hs2
        rw [htv] at ht2
        injection hs2 with hs2
        injection ht2 with ht2
        omega
      · rw [if_neg (by simp)] at h
        injection h with h1
        injection h1 with h2 h3
        rw [← h3] at hact
        simp at hact

theorem collectStep_copy_strict (into : FsPath) (promote dryRun : Bool)
    (oracle : CopyOracle) (fs : FS) (s : FsPath) (fs' : FS) (r : EntryRec)
    (h : collectStep into false promote dryRun oracle fs s = Except.ok (fs', r))
    (hact : r.act = Action.copy) :
    ∀ sm tm, r.srcM = some sm → r.tgtM = some tm → tm < sm := by
  rw [collectStep.eq_def] at h
  cases hn : fileName s with
  | none => rw [hn] at h; simp at h
  | some n =>
    rw [hn] at h
    exact collectDecide_copy_strict _ _ _ _ _ _ _ _ h hact

theorem distributeStep_copy_strict (fromDir : FsPath) (promote dryRun : Bool)
    (oracle : CopyOracle) (fs : FS) (t : FsPath) (fs' : FS) (r : EntryRec)
    (h : distributeStep fromDir false promote dryRun oracle fs t = Except.ok (fs', r))
    (hact : r.act = Action.copy) :
    ∀ sm tm, r.srcM = some sm → r.tgtM = some tm → tm < sm := by
  rw [distributeStep.eq_def] at h
  cases hn : fileName t with
  | none => rw [hn] at h; simp at h
  | some n =>
    rw [hn] at h
    exact distributeDecide_copy_strict _ _ _ _ _ _ _ _ h hact

theorem collectRun_copy_strict (into : FsPath) (promote dryRun : Bool)
    (oracle : CopyOracle) :
    ∀ (sources : List FsPath) (fs fs1 : FS) (log : List EntryRec),
      collectRun into false promote dryRun oracle fs sources = Except.ok (fs1, log) →
      ∀ r ∈ log, r.act = Action.copy →
        ∀ sm tm, r.srcM = some sm → r.tgtM = some tm → tm < sm := by
  intro sources
  induction sources with
  | nil =>
    intro fs fs1 log h r hr
    rw [collectRun] at h
    injection h with h1
    injection h1 with h2 h3
    rw [← h3] at hr
    simp at hr
  | cons s rest ih =>
    intro fs fs1 log h r hr hact
    rw [collectRun] at h
    cases hstep : collectStep into false promote dryRun oracle fs s with
    | error e => rw [hstep] at h; simp at h
    | ok p =>
      rw [hstep, ← Prod.mk.eta (p := p)] at h
      simp only at h
      cases hrest : collectRun into false promote dryRun oracle p.1 rest with
      | error e =>
        rw [hrest] at h
        simp at h
      | ok q =>
        rw [hrest, ← Prod.mk.eta (p := q)] at h
        simp only at h
        injection h with h1
        injection h1 with h2 h3
        rw [← h3] at hr
        rcases List.mem_cons.mp hr with rfl | hr'
        · exact collectStep_copy_strict _ _ _ _ _ _ _ _
            (by rw [hstep, Prod.mk.eta]) hact
        · exact ih p.1 q.1 q.2 (by rw [hrest, Prod.mk.eta]) r hr' hact

theorem distributeRun_copy_strict (fromDir : FsPath) (promote dryRun : Bool)
    (oracle : CopyOracle) :
    ∀ (targets : List FsPath) (fs fs1 : FS) (log : List EntryRec),
      distributeRun fromDir false promote dryRun oracle fs targets =
        Except.ok (fs1, log) →
      ∀ r ∈ log, r.act = Action.copy →
        ∀ sm tm, r.srcM = some sm → r.tgtM = some tm → tm < sm := by
  intro targets
  induction targets with
  | nil =>
    intro fs fs1 log h r hr
    rw [distributeRun] at h
    injection h with h1
    injection h1 with h2 h3
    rw [← h3] at hr
    simp at hr
  | cons t rest ih =>
    intro fs fs1 log h r hr hact
    rw [distributeRun] at h
    cases hstep : distributeStep fromDir false promote dryRun oracle fs t with
    | error e => rw [hstep] at h; simp at h
    | ok p =>
      rw [hstep, ← Prod.mk.eta (p := p)] at h
      simp only at h
      cases hrest : distributeRun fromDir false promote dryRun oracle p.1 rest with
      | error e =>
        rw [hrest] at h
        simp at h
      | ok q =>
        rw [hrest, ← Prod.mk.eta (p := q)] at h
        simp only at h
        injection h with h1
        injection h1 with h2 h3
        rw [← h3] at hr
        rcases List.mem_cons.mp hr with rfl | hr'
        · exact distributeStep_copy_strict _ _ _ _ _ _ _ _
            (by rw [hstep, Prod.mk.eta]) hact
        · exact ih p.1 q.1 q.2 (by rw [hrest, Prod.mk.eta]) r hr' hact

theorem collectDecide_forced_copies (promote : Bool) (method : CopyMethod)
    (oracle : CopyOracle) (fs : FS) (source target : FsPath) (sm tm : Nat)
    (fs' : FS) (r : EntryRec)
    (hs : fs source = some sm) (ht : fs target = some tm)
    (h : collectDecide true promote method oracle fs source target =
      Except.ok (fs', r)) :
    r.act = Action.copy := by
  rw [collectDecide.eq_def] at h
  cases hsv : fs source with
  | none =>
    rw [hsv] at hs
    simp at hs
  | some sm' =>
    rw [hsv] at h
    simp only at h
    cases htv : fs target with
    | none =>
      rw [htv] at h
      simp only at h
      have hr := copyAttempt_ok_rec _ _ _ _ _ _ _ _ h
      subst hr
      rfl
    | some tm' =>
      rw [htv] at h
      simp only at h
      split at h
      · have hr := copyAttempt_ok_rec _ _ _ _ _ _ _ _ h
        subst hr
        rfl
      · rw [if_pos trivial] at h
        have hr := copyAttempt_ok_rec _ _ _ _ _ _ _ _ h
        subst hr
        rfl

theorem distributeDecide_forced_copies (promote : Bool) (method : CopyMethod)
    (oracle : CopyOracle) (fs : FS) (source target : FsPath) (sm tm : Nat)
    (fs' : FS) (r : EntryRec)
    (hs : fs source = some sm) (ht : fs target = some tm)
    (h : distributeDecide true promote method oracle fs source target =
      Except.ok (fs', r)) :
    r.act = Action.copy := by
  rw [distributeDecide.eq_def] at h
  cases hsv : fs source with
  | none =>
    rw [hsv] at hs
    simp at hs
  | some sm' =>
    rw [hsv] at h
    simp only at h
    cases htv : fs target with
    | none =>
      rw [htv] at h
      simp only at h
      have hr := copyAttempt_ok_rec _ _ _ _ _ _ _ _ h
      subst hr
      rfl
    | some tm' =>
      rw [htv] at h
      simp only at h
      split at h
      · have hr := copyAttempt_ok_rec _ _ _ _ _ _ _ _ h
        subst hr
        rfl
      · rw [if_pos trivial] at h
        have hr := copyAttempt_ok_rec _ _ _ _ _ _ _ _ h
        subst hr
        rfl

/-- C2: in every unforced run (collect or distribute), every copy decision
made with both files present has the source strictly newer than the target,
so no destination strictly newer than its source is ever overwritten; and
with force set, a both-present entry whose target is at least as new is
nevertheless a (forced) copy — such overwrites occur only under force. -/
theorem no_unforced_overwrite_of_newer_destination :
    (∀ into promote dryRun oracle fs sources fs1 log,
      collectRun into false promote dryRun oracle fs sources =
        Except.ok (fs1, log) →
      ∀ r ∈ log, r.act = Action.copy →
        ∀ sm tm, r.srcM = some sm → r.tgtM = some tm → tm < sm) ∧
    (∀ fromDir promote dryRun oracle fs targets fs1 log,
      distributeRun fromDir false promote dryRun oracle fs targets =
        Except.ok (fs1, log) →
      ∀ r ∈ log, r.act = Action.copy →
        ∀ sm tm, r.srcM = some sm → r.tgtM = some tm → tm < sm) ∧
    (∀ promote method oracle fs source target sm tm fs' r,
      fs source = some sm → fs target = some tm →
      collectDecide true promote method oracle fs source target =
        Except.ok (fs', r) →
      r.act = Action.copy) ∧
    (∀ promote method oracle fs source target sm tm fs' r,
      fs source = some sm → fs target = some tm →
      distributeDecide true promote method oracle fs source target =
        Except.ok (fs', r) →
      r.act = Action.copy) := by
  refine ⟨?_, ?_, ?_, ?_⟩
  · intro into promote dryRun oracle fs sources fs1 log h
    exact collectRun_copy_strict into promote dryRun oracle sources fs fs1 log h
  · intro fromDir promote dryRun oracle fs targets fs1 log h
    exact distributeRun_copy_strict fromDir promote dryRun oracle targets fs fs1 log h
  · intro promote method oracle fs source target sm tm fs' r hs ht h
    exact collectDecide_forced_copies promote method oracle fs source target
      sm tm fs' r hs ht h
  · intro promote method oracle fs source target sm tm fs' r hs ht h
    exact distributeDecide_forced_copies promote method oracle fs source target
      sm tm fs' r hs ht h

theorem no_unforced_overwrite_of_newer_destination_witness :
    (3 : Nat) < 5 ∧
    EntryRec.act ⟨[Component.normal "s"], [Component.normal "t"],
      some 3, some 3, State.force, Action.copy⟩ = Action.copy :=
  ⟨no_unforced_overwrite_of_newer_destination.1
      [Component.normal "stall"] false false
      ⟨fun _ _ => SpawnResult.exited 0, fun fs s t => fsSet fs t (fs s)⟩
      (fun p => if p = [Component.normal "a"] then some 5
        else if p = [Component.normal "stall", Component.normal "a"] then some 3
        else none)
      [[Component.normal "a"]]
      (fsSet (fun p => if p = [Component.normal "a"] then some 5
        else if p = [Component.normal "stall", Component.normal "a"] then some 3
        else none) [Component.normal "stall", Component.normal "a"] (some 5))
      [⟨[Component.normal "a"], [Component.normal "stall", Component.normal "a"],
        some 5, some 3, State.newer, Action.copy⟩]
      (by rfl)
      ⟨[Component.normal "a"], [Component.normal "stall", Component.normal "a"],
        some 5, some 3, State.newer, Action.copy⟩
      (List.mem_singleton.mpr rfl) rfl 5 3 rfl rfl,
   no_unforced_overwrite_of_newer_destination.2.2.1
      false CopyMethod.noCopy
      ⟨fun _ _ => SpawnResult.exited 0, fun fs s t => fsSet fs t (fs s)⟩
      (fun _ => some 3) [Component.normal "s"] [Component.normal "t"] 3 3
      (fun _ => some 3)
      ⟨[Component.normal "s"], [Component.normal "t"],
        some 3, some 3, State.force, Action.copy⟩
      rfl rfl (by rfl)⟩

/-- C5: a failing physical copy is not propagated: `copy_file` discards the
subprocess exit status and returns `Ok`, so a `cp` that exits nonzero (a
failed copy) does not abort the run — the remaining entries are still
processed and the run reports success, contrary to the claim. -/
theorem copy_failure_not_propagated :
    copy_file (SpawnResult.exited 1) CopyMethod.subprocess =
      some (Except.ok ()) ∧
    (match collectRun [Component.normal "stall"] false false false
        ⟨fun _ _ => SpawnResult.exited 1, fun fs _ _ => fs⟩
        (fun p => if p = [Component.normal "a"] then some 5
          else if p = [Component.normal "b"] then some 5 else none)
        [[Component.normal "a"], [Component.normal "b"]] with
     | Except.ok (_, log) => some (log.map EntryRec.act)
     | Except.error _ => none) = some [Action.copy, Action.copy] := by
  exact ⟨rfl, rfl⟩

theorem resolveSelection_first_unmatched (stall : Stall) (pre : List FsPath)
    (f : FsPath) (post : List FsPath)
    (hpre : ∀ g ∈ pre, (stall.entry_local g).isSome = true)
    (hf : stall.entry_local f = none) :
    resolveSelection stall (pre ++ f :: post) =
      Except.error (DistError.unknownEntry f) := by
  induction pre with
  | nil =>
    simp only [List.nil_append]
    rw [resolveSelection, hf]
  | cons g rest ih =>
    have hg := hpre g (List.mem_cons_self g rest)
    rcases Option.isSome_iff_exists.mp hg with ⟨e, he⟩
    rw [List.cons_append, resolveSelection, he,
      ih (fun q hq => hpre q (List.mem_cons_of_mem g hq))]

/-- C9 counterexample: a run over an EMPTY stall given a non-empty selection
of local paths that match nothing returns success (the "no files" early
return precedes selection resolution), not the claimed `UnknownEntry`
failure. -/
theorem distribute_empty_stall_ignores_selection :
    (match distributeCmd [] { loadPath := none, modified := false, entries := [] }
        [[Component.normal "x"]] false false (fun _ => none) with
     | (cs, Except.ok _) => some cs
     | (_, Except.error _) => none) = some [] := by
  rfl

/-- C9 (amended): for every run on a NON-EMPTY store given a non-empty
selection, if any selected path matches no stored entry then the run fails
with `UnknownEntry` naming the first unmatched path, and no entry is
processed and no copy is performed before the failure. -/
theorem distribute_unknown_selection_aborts (stallDir : FsPath) (stall : Stall)
    (pre : List FsPath) (f : FsPath) (post : List FsPath)
    (force dryRun : Bool) (fs : FS)
    (hne : stall.is_empty = false)
    (hpre : ∀ g ∈ pre, (stall.entry_local g).isSome = true)
    (hf : stall.entry_local f = none) :
    distributeCmd stallDir stall (pre ++ f :: post) force dryRun fs =
      ([], Except.error (DistError.unknownEntry f)) := by
  have hfiles : (pre ++ f :: post).isEmpty = false := by
    cases pre <;> rfl
  rw [distributeCmd.eq_def, hne]
  rw [if_neg (show ¬(false = true) by simp)]
  rw [hfiles]
  rw [if_neg (show ¬(false = true) by simp)]
  rw [resolveSelection_first_unmatched stall pre f post hpre hf]

theorem distribute_unknown_selection_aborts_witness :
    distributeCmd []
      { loadPath := none, modified := false,
        entries := [([Component.normal "a"], [Component.normal "r"])] }
      [[Component.normal "x"]] false false (fun _ => none) =
      ([], Except.error (DistError.unknownEntry [Component.normal "x"])) :=
  distribute_unknown_selection_aborts [] _ [] [Component.normal "x"] [] false false _
    rfl (fun g hg => absurd hg (List.not_mem_nil g)) rfl

/-! ## Idempotence of collect (C7) -/

theorem fileName_joinName (p : FsPath) (n : String) :
    fileName (joinName p n) = some n := by
  simp [fileName, joinName, List.getLast?_concat]

theorem fsSet_self (fs : FS) (t : FsPath) (v : Option Nat) :
    fsSet fs t v t = v := by
  simp [fsSet]

theorem fsSet_other (fs : FS) (t p : FsPath) (v : Option Nat) (h : p ≠ t) :
    fsSet fs t v p = fs p := by
  simp [fsSet, h]

theorem copyAttempt_ok_fs (oracle : CopyOracle) (fs : FS) (source target : FsPath)
    (method : CopyMethod) (st : State) (fs' : FS) (r : EntryRec)
    (h : copyAttempt oracle fs source target method st = Except.ok (fs', r)) :
    fs' = (match method with
      | CopyMethod.noCopy => fs
      | CopyMethod.subprocess => oracle.eff fs source target) := by
  cases method with
  | noCopy =>
    unfold copyAttempt at h
    simp only [copy_file] at h
    injection h with h1
    injection h1 with h2 h3
    exact h2.symm
  | subprocess =>
    cases hspawn : oracle.spawn source target with
    | failed =>
      unfold copyAttempt at h
      rw [hspawn] at h
      simp only [copy_file] at h
      exact absurd h (by simp)
    | exited c =>
      unfold copyAttempt at h
      rw [hspawn] at h
      simp only [copy_file] at h
      injection h with h1
      injection h1 with h2 h3
      exact h2.symm

theorem collectStep_shape (into : FsPath) (promote : Bool) (oracle : CopyOracle)
    (hpres : PreservingOracle oracle) (fs fs' : FS) (s : FsPath) (r : EntryRec)
    (h : collectStep into false promote false oracle fs s = Except.ok (fs', r)) :
    ∃ n, fileName s = some n ∧
      ((fs' = fs ∧
        ((∃ sm tm, fs s = some sm ∧ fs (joinName into n) = some tm ∧ sm ≤ tm) ∨
         (fs s = none ∧ promote = false))) ∨
       (∃ sm, fs s = some sm ∧
         fs' = fsSet fs (joinName into n) (some sm) ∧
         (∀ tm, fs (joinName into n) = some tm → tm ≤ sm))) := by
  rw [collectStep.eq_def] at h
  cases hn : fileName s with
  | none => rw [hn] at h; simp at h
  | some n =>
    rw [hn] at h
    simp only at h
    refine ⟨n, rfl, ?_⟩
    rw [collectDecide.eq_def] at h
    cases hsv : fs s with
    | none =>
      rw [hsv] at h
      simp only at h
      split at h
      · simp at h
      · rename_i hpr
        injection h with h1
        injection h1 with h2 h3
        exact Or.inl ⟨h2.symm, Or.inr ⟨rfl, by simpa using hpr⟩⟩
    | some sm =>
      rw [hsv] at h
      simp only at h
      cases htv : fs (joinName into n) with
      | none =>
        rw [htv] at h
        simp only at h
        have hfs := copyAttempt_ok_fs _ _ _ _ _ _ _ _ h
        refine Or.inr ⟨sm, rfl, ?_, ?_⟩
        · rw [hfs]
          show oracle.eff fs s (joinName into n) = fsSet fs (joinName into n) (some sm)
          rw [hpres fs s (joinName into n), hsv]
        · intro tm htm
          exact absurd htm (by simp)
      | some tm =>
        rw [htv] at h
        simp only at h
        split at h
        · rename_i hgt
          have hfs := copyAttempt_ok_fs _ _ _ _ _ _ _ _ h
          refine Or.inr ⟨sm, rfl, ?_, ?_⟩
          · rw [hfs]
            show oracle.eff fs s (joinName into n) = fsSet fs (joinName into n) (some sm)
            rw [hpres fs s (joinName into n), hsv]
          · intro tm2 htm2
            injection htm2 with htm2
            omega
        · rename_i hng
          rw [if_neg (by simp)] at h
          injection h with h1
          injection h1 with h2 h3
          exact Or.inl ⟨h2.symm, Or.inl ⟨sm, tm, rfl, rfl, by omega⟩⟩

theorem collectStep_mono (into : FsPath) (promote : Bool) (oracle : CopyOracle)
    (hpres : PreservingOracle oracle) (fs fs' : FS) (s : FsPath) (r : EntryRec)
    (h : collectStep into false promote false oracle fs s = Except.ok (fs', r)) :
    ∀ p m, fs p = some m → ∃ m', fs' p = some m' ∧ m ≤ m' := by
  obtain ⟨n, hn, hc⟩ := collectStep_shape into promote oracle hpres fs fs' s r h
  intro p m hp
  rcases hc with ⟨rfl, hsk⟩ | ⟨sm, hs, hset, hcmp⟩
  · exact ⟨m, hp, le_refl m⟩
  · by_cases hpt : p = joinName into n
    · subst hpt
      refine ⟨sm, ?_, hcmp m hp⟩
      rw [hset, fsSet_self]
    · refine ⟨m, ?_, le_refl m⟩
      rw [hset, fsSet_other _ _ _ _ hpt]
      exact hp

theorem collectStep_changes_only_self_target (into : FsPath) (promote : Bool)
    (oracle : CopyOracle) (hpres : PreservingOracle oracle) (fs fs' : FS)
    (s : FsPath) (r : EntryRec)
    (h : collectStep into false promote false oracle fs s = Except.ok (fs', r)) :
    ∀ p, fs' p ≠ fs p → ∃ n2, fileName p = some n2 ∧ p = joinName into n2 := by
  obtain ⟨n, hn, hc⟩ := collectStep_shape into promote oracle hpres fs fs' s r h
  intro p hp
  rcases hc with ⟨rfl, hsk⟩ | ⟨sm, hs, hset, hcmp⟩
  · exact absurd rfl hp
  · by_cases hpt : p = joinName into n
    · exact ⟨n, by rw [hpt, fileName_joinName], hpt⟩
    · rw [hset, fsSet_other _ _ _ _ hpt] at hp
      exact absurd rfl hp

theorem collectStep_establishes_good (into : FsPath) (promote : Bool)
    (oracle : CopyOracle) (hpres : PreservingOracle oracle) (fs fs' : FS)
    (s : FsPath) (r : EntryRec)
    (h : collectStep into false promote false oracle fs s = Except.ok (fs', r)) :
    Good into promote fs' s := by
  obtain ⟨n, hn, hc⟩ := collectStep_shape into promote oracle hpres fs fs' s r h
  refine ⟨n, hn, ?_⟩
  rcases hc with ⟨rfl, hsk⟩ | ⟨sm, hs, hset, hcmp⟩
  · rcases hsk with ⟨sm, tm, hs, ht, hle⟩ | ⟨habs, hpr⟩
    · exact Or.inr ⟨sm, tm, hs, ht, hle⟩
    · exact Or.inl ⟨habs, hpr⟩
  · right
    have htgt : fs' (joinName into n) = some sm := by
      rw [hset, fsSet_self]
    by_cases hst : s = joinName into n
    · exact ⟨sm, sm, by rw [hst]; exact htgt, htgt, le_refl sm⟩
    · exact ⟨sm, sm, by rw [hset, fsSet_other _ _ _ _ hst]; exact hs, htgt,
        le_refl sm⟩

theorem good_preserved (into : FsPath) (promote : Bool) (fs fs' : FS) (s : FsPath)
    (hmono : ∀ p m, fs p = some m → ∃ m', fs' p = some m' ∧ m ≤ m')
    (hchg : ∀ p, fs' p ≠ fs p → ∃ n2, fileName p = some n2 ∧ p = joinName into n2)
    (hg : Good into promote fs s) : Good into promote fs' s := by
  obtain ⟨n, hn, hc⟩ := hg
  refine ⟨n, hn, ?_⟩
  rcases hc with ⟨habs, hpr⟩ | ⟨sm, tm, hs, ht, hle⟩
  · by_cases hch : fs' s = fs s
    · exact Or.inl ⟨by rw [hch, habs], hpr⟩
    · obtain ⟨n2, hn2, hself⟩ := hchg s hch
      rw [hn] at hn2
      injection hn2 with hn2
      subst hn2
      cases hval : fs' s with
      | none => exact Or.inl ⟨rfl, hpr⟩
      | some m =>
        exact Or.inr ⟨m, m, rfl, by rw [← hself]; exact hval, le_refl m⟩
  · obtain ⟨sm2, hs2, hsle⟩ := hmono s sm hs
    obtain ⟨tm2, ht2, htle⟩ := hmono (joinName into n) tm ht
    by_cases hch : fs' s = fs s
    · exact Or.inr ⟨sm, tm2, by rw [hch]; exact hs, ht2, le_trans hle htle⟩
    · obtain ⟨n2, hn2, hself⟩ := hchg s hch
      rw [hn] at hn2
      injection hn2 with hn2
      subst hn2
      exact Or.inr ⟨sm2, sm2, hs2, by rw [← hself]; exact hs2, le_refl sm2⟩

theorem collectRun_preserves_good (into : FsPath) (promote : Bool)
    (oracle : CopyOracle) (hpres : PreservingOracle oracle) :
    ∀ (sources : List FsPath) (fs fs1 : FS) (log : List EntryRec),
      collectRun into false promote false oracle fs sources =
        Except.ok (fs1, log) →
      ∀ s0, Good into promote fs s0 → Good into promote fs1 s0 := by
  intro sources
  induction sources with
  | nil =>
    intro fs fs1 log h s0 hg
    rw [collectRun] at h
    injection h with h1
    injection h1 with h2 h3
    rw [← h2]
    exact hg
  | cons s rest ih =>
    intro fs fs1 log h s0 hg
    rw [collectRun] at h
    cases hstep : collectStep into false promote false oracle fs s with
    | error e => rw [hstep] at h; simp at h
    | ok p =>
      rw [hstep, ← Prod.mk.eta (p := p)] at h
      simp only at h
      cases hrest : collectRun into false promote false oracle p.1 rest with
      | error e => rw [hrest] at h; simp at h
      | ok q =>
        rw [hrest, ← Prod.mk.eta (p := q)] at h
        simp only at h
        injection h with h1
        injection h1 with h2 h3
        have hg2 : Good into promote p.1 s0 :=
          good_preserved into promote fs p.1 s0
            (collectStep_mono into promote oracle hpres fs p.1 s p.2
              (by rw [hstep, Prod.mk.eta]))
            (collectStep_changes_only_self_target into promote oracle hpres fs p.1 s p.2
              (by rw [hstep, Prod.mk.eta]))
            hg
        have hfin := ih p.1 q.1 q.2 (by rw [hrest, Prod.mk.eta]) s0 hg2
        rw [← h2]
        exact hfin

theorem collectRun_establishes_good (into : FsPath) (promote : Bool)
    (oracle : CopyOracle) (hpres : PreservingOracle oracle) :
    ∀ (sources : List FsPath) (fs fs1 : FS) (log : List EntryRec),
      collectRun into false promote false oracle fs sources =
        Except.ok (fs1, log) →
      ∀ s ∈ sources, Good into promote fs1 s := by
  intro sources
  induction sources with
  | nil => intro fs fs1 log h s hs; exact absurd hs (List.not_mem_nil s)
  | cons s0 rest ih =>
    intro fs fs1 log h s hs
    rw [collectRun] at h
    cases hstep : collectStep into false promote false oracle fs s0 with
    | error e => rw [hstep] at h; simp at h
    | ok p =>
      rw [hstep, ← Prod.mk.eta (p := p)] at h
      simp only at h
      cases hrest : collectRun into false promote false oracle p.1 rest with
      | error e => rw [hrest] at h; simp at h
      | ok q =>
        rw [hrest, ← Prod.mk.eta (p := q)] at h
        simp only at h
        injection h with h1
        injection h1 with h2 h3
        rcases List.mem_cons.mp hs with rfl | hmem
        · have hg2 : Good into promote p.1 s :=
            collectStep_establishes_good into promote oracle hpres fs p.1 s p.2
              (by rw [hstep, Prod.mk.eta])
          have hfin := collectRun_preserves_good into promote oracle hpres rest
            p.1 q.1 q.2 (by rw [hrest, Prod.mk.eta]) s hg2
          rw [← h2]
          exact hfin
        · have hfin := ih p.1 q.1 q.2 (by rw [hrest, Prod.mk.eta]) s hmem
          rw [← h2]
          exact hfin

theorem good_collectStep_skips (into : FsPath) (promote dryRun : Bool)
    (oracle : CopyOracle) (fs : FS) (s : FsPath)
    (hg : Good into promote fs s) :
    ∃ r, collectStep into false promote dryRun oracle fs s =
        Except.ok (fs, r) ∧ r.act = Action.skip := by
  obtain ⟨n, hn, hc⟩ := hg
  rcases hc with ⟨habs, hpr⟩ | ⟨sm, tm, hs, ht, hle⟩
  · refine ⟨⟨s, joinName into n, none, fs (joinName into n), State.error,
      Action.skip⟩, ?_, rfl⟩
    rw [collectStep.eq_def, hn]
    simp only
    rw [collectDecide.eq_def, habs]
    simp only
    rw [hpr]
    simp
  · refine ⟨⟨s, joinName into n, some sm, some tm, State.older,
      Action.skip⟩, ?_, rfl⟩
    rw [collectStep.eq_def, hn]
    simp only
    rw [collectDecide.eq_def, hs]
    simp only
    rw [ht]
    simp only
    rw [if_neg (by omega), if_neg (by simp)]

theorem good_collectRun_skips (into : FsPath) (promote dryRun : Bool)
    (oracle : CopyOracle) :
    ∀ (sources : List FsPath) (fs : FS),
      (∀ s ∈ sources, Good into promote fs s) →
      ∃ log2, collectRun into false promote dryRun oracle fs sources =
          Except.ok (fs, log2) ∧
        log2.length = sources.length ∧ ∀ r ∈ log2, r.act = Action.skip := by
  intro sources
  induction sources with
  | nil =>
    intro fs _
    exact ⟨[], by rw [collectRun], rfl,
      fun r hr => absurd hr (List.not_mem_nil r)⟩
  | cons s rest ih =>
    intro fs hall
    obtain ⟨r0, hstep, hact⟩ := good_collectStep_skips into promote dryRun oracle
      fs s (hall s (List.mem_cons_self s rest))
    obtain ⟨log2, hrun, hlen, hacts⟩ :=
      ih fs (fun q hq => hall q (List.mem_cons_of_mem s hq))
    refine ⟨r0 :: log2, ?_, by simp [hlen], ?_⟩
    · rw [collectRun, hstep]
      show (match collectRun into false promote dryRun oracle fs rest with
        | Except.error e => Except.error e
        | Except.ok (fs'', rs) => Except.ok (fs'', r0 :: rs)) =
        Except.ok (fs, r0 :: log2)
      rw [hrun]
    · intro r hr
      rcases List.mem_cons.mp hr with rfl | hr'
      · exact hact
      · exact hacts r hr'

/-- C7: a successful unforced, non-dry collect run leaves every processed
source settled, so an immediately repeated unforced collect over the same
sources succeeds, changes nothing, and records the Skip action for every
entry — in particular for every entry that did not produce an error status
on the first run. Requires the copy collaborator of §6 (a successful copy
creates the destination with the source's modification time preserved). -/
theorem collect_twice_second_run_skips (into : FsPath) (promote : Bool)
    (oracle : CopyOracle) (fs0 fs1 : FS) (sources : List FsPath)
    (log1 : List EntryRec)
    (hpres : PreservingOracle oracle)
    (h1 : collectRun into false promote false oracle fs0 sources =
      Except.ok (fs1, log1)) :
    ∃ log2, collectRun into false promote false oracle fs1 sources =
        Except.ok (fs1, log2) ∧
      log2.length = sources.length ∧
      ∀ r ∈ log2, r.act = Action.skip :=
  good_collectRun_skips into promote false oracle sources fs1
    (collectRun_establishes_good into promote oracle hpres sources fs0 fs1 log1 h1)

theorem collect_twice_second_run_skips_witness :
    ∃ log2, collectRun [Component.normal "stall"] false false false
        ⟨fun _ _ => SpawnResult.exited 0, fun fs s t => fsSet fs t (fs s)⟩
        (fsSet (fun p => if p = [Component.normal "a"] then some 5
          else if p = [Component.normal "stall", Component.normal "a"] then some 3
          else none) [Component.normal "stall", Component.normal "a"] (some 5))
        [[Component.normal "a"]] =
        Except.ok (fsSet (fun p => if p = [Component.normal "a"] then some 5
          else if p = [Component.normal "stall", Component.normal "a"] then some 3
          else none) [Component.normal "stall", Component.normal "a"] (some 5),
          log2) ∧
      log2.length = [[Component.normal "a"]].length ∧
      ∀ r ∈ log2, r.act = Action.skip :=
  collect_twice_second_run_skips [Component.normal "stall"] false
    ⟨fun _ _ => SpawnResult.exited 0, fun fs s t => fsSet fs t (fs s)⟩
    (fun p => if p = [Component.normal "a"] then some 5
      else if p = [Component.normal "stall", Component.normal "a"] then some 3
      else none)
    (fsSet (fun p => if p = [Component.normal "a"] then some 5
      else if p = [Component.normal "stall", Component.normal "a"] then some 3
      else none) [Component.normal "stall", Component.normal "a"] (some 5))
    [[Component.normal "a"]]
    [⟨[Component.normal "a"], [Component.normal "stall", Component.normal "a"],
      some 5, some 3, State.newer, Action.copy⟩]
    (fun fs s t => rfl) (by rfl)

end StallM
